import Mathlib

/-!
Verification of the image-to-checkbox-grid pipeline.

The development embeds the pure computational content of the repository's
image-processing utilities: grayscale conversion, Otsu threshold search,
threshold application, text export, GIF validation, the single-frame
pipeline `processImage`, the animated-GIF hook's frame processing, and the
playback advance rule.  Host-environment operations (canvas `drawImage`
resampling, image decoding, frame extraction) are modelled as explicit
function parameters; JavaScript numbers are modelled as exact rationals
and machine bytes as natural numbers.
-/

/-- A pixel of an RGBA raster (each channel an 8-bit value in the source's
`Uint8ClampedArray`; modelled as `Nat`). -/
structure Pixel where
  r : Nat
  g : Nat
  b : Nat
  a : Nat
deriving DecidableEq

/-- A fallback pixel used only to totalise list indexing in statements. -/
def dummyPixel : Pixel := ⟨0, 0, 0, 0⟩

/-- An `ImageData` raster: width, height and the flat pixel array. -/
structure ImageData where
  width : Nat
  height : Nat
  data : List Pixel
deriving DecidableEq

/-- `PROCESSING_CONFIG.DEFAULT_THRESHOLD` from the image processor. -/
def DEFAULT_THRESHOLD : Nat := 128

/-- JavaScript `Math.round` on a non-negative number: round half up, that
is, the floor of `x + 1/2` (written on the rational's numerator and
denominator to stay kernel-computable). -/
def jsRound (x : ℚ) : ℤ := (x + 1 / 2).num / ((x + 1 / 2).den : ℤ)

lemma jsRound_eq_floor (x : ℚ) : jsRound x = ⌊x + 1 / 2⌋ := Rat.floor_def.symm

/-- The luminance formula of the grayscale converter:
`Math.round(r * 0.299 + g * 0.587 + b * 0.114)` with the weights of
`PROCESSING_CONFIG.GRAYSCALE_WEIGHTS`. -/
def grayValue (r g b : Nat) : Nat :=
  (jsRound ((r : ℚ) * 0.299 + (g : ℚ) * 0.587 + (b : ℚ) * 0.114)).toNat

/-- The per-pixel body of the grayscale loops: all three colour channels are
set to the luminance value, the alpha channel is copied. -/
def grayPixel (p : Pixel) : Pixel :=
  let gray := grayValue p.r p.g p.b
  { r := gray, g := gray, b := gray, a := p.a }

/-- `convertImageDataToGrayscale` from the image processor: a fresh
`ImageData` of the same dimensions whose every pixel is grayed. -/
def convertImageDataToGrayscale (imageData : ImageData) : ImageData :=
  { width := imageData.width
    height := imageData.height
    data := imageData.data.map grayPixel }

/-- `applyThreshold` from the image processor.  The canvas rescale of the
raster onto the `gridSize`-by-`gridSize` target (`drawImage` followed by
`getImageData`) is host behaviour and is passed in as `scale`; the function
then classifies each scaled cell by `gray < threshold` where `gray` is the
red channel (all channels agree on grayscale data). -/
def applyThreshold (scale : ImageData → Nat → List Pixel)
    (imageData : ImageData) (threshold : Nat) (gridSize : Nat) : List Bool :=
  let data := scale imageData gridSize
  data.map (fun p => decide (p.r < threshold))

lemma list_getD_map {α β : Type} (f : α → β) (l : List α) (i : Nat)
    (dA : α) (dB : β) (h : i < l.length) :
    (l.map f).getD i dB = f (l.getD i dA) := by
  induction l generalizing i with
  | nil => simp at h
  | cons x xs ih =>
    cases i with
    | zero => rfl
    | succ n =>
      simp only [List.map_cons, List.getD_cons_succ]
      exact ih n (by simpa using h)

lemma grayValue_fixed (g : Nat) : grayValue g g g = g := by
  unfold grayValue
  rw [jsRound_eq_floor]
  have hsum : (g : ℚ) * 0.299 + (g : ℚ) * 0.587 + (g : ℚ) * 0.114 = (g : ℚ) := by
    ring_nf
  rw [hsum]
  have hfloor : ⌊(g : ℚ) + 1 / 2⌋ = (g : ℤ) := by
    rw [Int.floor_eq_iff]
    constructor
    · push_cast
      linarith
    · push_cast
      linarith
  rw [hfloor]
  exact Int.toNat_natCast g

lemma grayPixel_idem (p : Pixel) : grayPixel (grayPixel p) = grayPixel p := by
  simp [grayPixel, grayValue_fixed]

/-- **C7.** Grayscale conversion is idempotent: converting twice yields the
same raster as converting once; on an already gray raster every channel,
alpha included, is left unchanged. -/
theorem grayscale_idempotent (img : ImageData) :
    convertImageDataToGrayscale (convertImageDataToGrayscale img) =
      convertImageDataToGrayscale img := by
  simp [convertImageDataToGrayscale, List.map_map, Function.comp_def, grayPixel_idem]

/-- **C6.** Grayscale conversion preserves the dimensions and pixel count of
its input, and sets each output pixel's red, green and blue channels to
`round(0.299 * R + 0.587 * G + 0.114 * B)` of the corresponding source
pixel while copying its alpha channel unchanged; being a Lean function on
rasters it is total, with no failure mode. -/
theorem grayscale_pixelwise (img : ImageData) :
    (convertImageDataToGrayscale img).width = img.width ∧
    (convertImageDataToGrayscale img).height = img.height ∧
    (convertImageDataToGrayscale img).data.length = img.data.length ∧
    ∀ i, i < img.data.length →
      (convertImageDataToGrayscale img).data.getD i dummyPixel =
        { r := grayValue (img.data.getD i dummyPixel).r (img.data.getD i dummyPixel).g
              (img.data.getD i dummyPixel).b
          g := grayValue (img.data.getD i dummyPixel).r (img.data.getD i dummyPixel).g
              (img.data.getD i dummyPixel).b
          b := grayValue (img.data.getD i dummyPixel).r (img.data.getD i dummyPixel).g
              (img.data.getD i dummyPixel).b
          a := (img.data.getD i dummyPixel).a } := by
  refine ⟨rfl, rfl, by simp [convertImageDataToGrayscale], ?_⟩
  intro i hi
  have := list_getD_map grayPixel img.data i dummyPixel dummyPixel hi
  simp only [convertImageDataToGrayscale] at *
  rw [this]
  rfl

/-- Witness for C6 at a concrete raster. -/
theorem grayscale_pixelwise_witness :
    0 < (ImageData.mk 1 1 [⟨255, 0, 0, 9⟩]).data.length ∧
    (convertImageDataToGrayscale (ImageData.mk 1 1 [⟨255, 0, 0, 9⟩])).data.getD 0 dummyPixel =
      { r := grayValue 255 0 0, g := grayValue 255 0 0, b := grayValue 255 0 0, a := 9 } := by
  refine ⟨by decide, ?_⟩
  exact (grayscale_pixelwise (ImageData.mk 1 1 [⟨255, 0, 0, 9⟩])).2.2.2 0 (by decide)

/-- **C3.** For any host rescale, any threshold and any grid size, a cell of
`applyThreshold` is on exactly when its resampled luminance is strictly
below the threshold; a cell whose resampled luminance equals the threshold
is classified off (the comparison is `<`, not `<=`). -/
theorem applyThreshold_boundary (scale : ImageData → Nat → List Pixel)
    (img : ImageData) (t gs i : Nat) (ht : t ≤ 255) (hgs : 1 ≤ gs)
    (hi : i < (scale img gs).length) :
    ((applyThreshold scale img t gs).getD i false = true ↔
      ((scale img gs).getD i dummyPixel).r < t) ∧
    (((scale img gs).getD i dummyPixel).r = t →
      (applyThreshold scale img t gs).getD i false = false) := by
  have hmap := list_getD_map (fun p => decide (p.r < t)) (scale img gs) i dummyPixel false hi
  constructor
  · rw [applyThreshold, hmap]
    exact ⟨fun h => of_decide_eq_true h, fun h => decide_eq_true h⟩
  · intro he
    rw [applyThreshold, hmap]
    simp only [decide_eq_false_iff_not, not_lt]
    exact he.symm.le

/-- Witness for C3: a cell whose value equals the threshold comes out off. -/
theorem applyThreshold_boundary_witness :
    (5 : Nat) ≤ 255 ∧ (1 : Nat) ≤ 1 ∧
    0 < ((fun (_ : ImageData) (_ : Nat) => [Pixel.mk 5 5 5 255]) (ImageData.mk 1 1 []) 1).length ∧
    (applyThreshold (fun _ _ => [Pixel.mk 5 5 5 255]) (ImageData.mk 1 1 []) 5 1).getD 0 false
      = false := by
  refine ⟨by decide, by decide, by decide, ?_⟩
  exact (applyThreshold_boundary (fun _ _ => [Pixel.mk 5 5 5 255])
    (ImageData.mk 1 1 []) 5 1 0 (by decide) (by decide) (by decide)).2 rfl


/-- The "on" glyph of the text exporter. -/
def checkedGlyph : Char := '☒'

/-- The "off" glyph of the text exporter. -/
def uncheckedGlyph : Char := '☐'

/-- The glyph chosen for one cell: `checkboxStates[i] ? '☒' : '☐'`. -/
def glyphOf (s : Bool) : Char := if s then checkedGlyph else uncheckedGlyph

/-- The character stream built by `exportAsText`'s loop: one glyph per cell,
and a newline whenever `(i + 1) % gridSize == 0`. -/
def exportChars (gridSize : Nat) : Nat → List Bool → List Char
  | _, [] => []
  | i, s :: rest =>
      glyphOf s ::
        (if (i + 1) % gridSize = 0 then '\n' :: exportChars gridSize (i + 1) rest
         else exportChars gridSize (i + 1) rest)

/-- `exportAsText` from the image processor: the pattern string accumulated
over the checkbox states, starting at index 0. -/
def exportAsText (checkboxStates : List Bool) (gridSize : Nat) : String :=
  ⟨exportChars gridSize 0 checkboxStates⟩

lemma exportChars_cons (gs i : Nat) (s : Bool) (rest : List Bool) :
    exportChars gs i (s :: rest) =
      glyphOf s ::
        (if (i + 1) % gs = 0 then '\n' :: exportChars gs (i + 1) rest
         else exportChars gs (i + 1) rest) := rfl

lemma exportChars_row (gs : Nat) (hgs : 0 < gs) :
    ∀ (row : List Bool) (j k : Nat) (rest : List Bool),
      j < gs → j + row.length = gs →
      exportChars gs (gs * k + j) (row ++ rest) =
        row.map glyphOf ++ '\n' :: exportChars gs (gs * (k + 1)) rest := by
  intro row
  induction row with
  | nil =>
    intro j k rest hj h
    simp at h
    omega
  | cons x xs ih =>
    intro j k rest hj h
    rw [List.cons_append, exportChars_cons]
    rcases Nat.eq_or_lt_of_le (Nat.succ_le_of_lt hj) with hje | hjlt
    · have hxs : xs = [] := by
        have hx : xs.length = 0 := by
          simp only [List.length_cons] at h
          omega
        exact List.eq_nil_of_length_eq_zero hx
      subst hxs
      have hexp : gs * (k + 1) = gs * k + gs := Nat.mul_succ gs k
      have hmod : (gs * k + j + 1) % gs = 0 := by
        have harg : gs * k + j + 1 = gs * (k + 1) := by omega
        rw [harg]
        exact Nat.mul_mod_right gs (k + 1)
      rw [if_pos hmod]
      have harg : gs * k + j + 1 = gs * (k + 1) := by omega
      rw [harg]
      simp
    · have hmod : (gs * k + j + 1) % gs ≠ 0 := by
        have heq : (gs * k + j + 1) % gs = j + 1 := by
          rw [Nat.add_assoc, Nat.add_comm (gs * k) (j + 1), Nat.add_mul_mod_self_left]
          exact Nat.mod_eq_of_lt hjlt
        omega
      rw [if_neg hmod]
      have harg : gs * k + j + 1 = gs * k + (j + 1) := by omega
      rw [harg, ih (j + 1) k rest hjlt (by simp only [List.length_cons] at h ⊢; omega)]
      simp

lemma exportChars_rows (gs : Nat) (hgs : 0 < gs) :
    ∀ (m k : Nat) (grid : List Bool), grid.length = gs * m →
      ∃ rows : List (List Bool),
        rows.length = m ∧ (∀ r ∈ rows, r.length = gs) ∧ rows.flatten = grid ∧
        exportChars gs (gs * k) grid =
          (rows.map (fun r => r.map glyphOf ++ ['\n'])).flatten := by
  intro m
  induction m with
  | zero =>
    intro k grid hlen
    have : grid = [] := List.eq_nil_of_length_eq_zero (by simpa using hlen)
    subst this
    exact ⟨[], rfl, by simp, rfl, rfl⟩
  | succ m ih =>
    intro k grid hlen
    have hge : gs ≤ grid.length := by
      rw [hlen]
      calc gs = gs * 1 := by ring
        _ ≤ gs * (m + 1) := Nat.mul_le_mul_left gs (by omega)
    obtain ⟨row, rest, hsplit, hrowlen⟩ :
        ∃ row rest, grid = row ++ rest ∧ row.length = gs :=
      ⟨grid.take gs, grid.drop gs, (List.take_append_drop gs grid).symm,
        by rw [List.length_take]; omega⟩
    have hrestlen : rest.length = gs * m := by
      have hsum : grid.length = row.length + rest.length := by rw [hsplit]; simp
      rw [hlen, hrowlen] at hsum
      have hmul : gs * (m + 1) = gs * m + gs := Nat.mul_succ gs m
      omega
    obtain ⟨rows, hrl, hrall, hrjoin, hrchars⟩ := ih (k + 1) rest hrestlen
    refine ⟨row :: rows, by simp [hrl], ?_, by simp [hrjoin, hsplit], ?_⟩
    · intro r hr
      rcases List.mem_cons.mp hr with hr | hr
      · rw [hr]; exact hrowlen
      · exact hrall r hr
    · rw [hsplit]
      have hrow := exportChars_row gs hgs row 0 k rest hgs (by simpa using hrowlen)
      simp only [Nat.add_zero] at hrow
      rw [hrow, hrchars]
      simp

lemma exportChars_const (gs : Nat) (b : Bool) :
    ∀ (grid : List Bool) (i : Nat), (∀ s ∈ grid, s = b) →
      ∀ c ∈ exportChars gs i grid, c = glyphOf b ∨ c = '\n' := by
  intro grid
  induction grid with
  | nil =>
    intro i _ c hc
    simp [exportChars] at hc
  | cons x xs ih =>
    intro i hall c hc
    have hx : x = b := hall x (by simp)
    rw [exportChars_cons] at hc
    rcases List.mem_cons.mp hc with hc | hc
    · left
      rw [hc, hx]
    · by_cases hm : (i + 1) % gs = 0
      · rw [if_pos hm] at hc
        rcases List.mem_cons.mp hc with hc | hc
        · right
          rw [hc]
        · exact ih (i + 1) (fun s hs => hall s (by simp [hs])) c hc
      · rw [if_neg hm] at hc
        exact ih (i + 1) (fun s hs => hall s (by simp [hs])) c hc

/-- **C9.** On a grid of length `gridSize ^ 2` with `gridSize ≥ 1`, the text
export is the concatenation of exactly `gridSize` newline-terminated rows of
exactly `gridSize` glyphs each; an all-false grid yields only off-glyphs
(and newlines), an all-true grid only on-glyphs (and newlines). -/
theorem exportAsText_shape (gs : Nat) (grid : List Bool)
    (hgs : 1 ≤ gs) (hlen : grid.length = gs * gs) :
    (∃ rows : List (List Bool),
        rows.length = gs ∧ (∀ r ∈ rows, r.length = gs) ∧ rows.flatten = grid ∧
        (exportAsText grid gs).data =
          (rows.map (fun r => r.map glyphOf ++ ['\n'])).flatten) ∧
    (grid = List.replicate (gs * gs) false →
      ∀ c ∈ (exportAsText grid gs).data, c = uncheckedGlyph ∨ c = '\n') ∧
    (grid = List.replicate (gs * gs) true →
      ∀ c ∈ (exportAsText grid gs).data, c = checkedGlyph ∨ c = '\n') := by
  refine ⟨?_, ?_, ?_⟩
  · have hrows := exportChars_rows gs hgs gs 0 grid hlen
    simpa [exportAsText] using hrows
  · intro hrep c hc
    have hall : ∀ s ∈ grid, s = false := by
      intro s hs
      rw [hrep] at hs
      exact List.eq_of_mem_replicate hs
    have hres := exportChars_const gs false grid 0 hall c (by simpa [exportAsText] using hc)
    simpa [glyphOf] using hres
  · intro hrep c hc
    have hall : ∀ s ∈ grid, s = true := by
      intro s hs
      rw [hrep] at hs
      exact List.eq_of_mem_replicate hs
    have hres := exportChars_const gs true grid 0 hall c (by simpa [exportAsText] using hc)
    simpa [glyphOf] using hres

/-- Witness for C9 on a concrete 2-by-2 grid. -/
theorem exportAsText_shape_witness :
    (1 : Nat) ≤ 2 ∧ ([true, false, false, true] : List Bool).length = 2 * 2 ∧
    ((∃ rows : List (List Bool),
        rows.length = 2 ∧ (∀ r ∈ rows, r.length = 2) ∧
        rows.flatten = [true, false, false, true] ∧
        (exportAsText [true, false, false, true] 2).data =
          (rows.map (fun r => r.map glyphOf ++ ['\n'])).flatten) ∧
    ([true, false, false, true] = List.replicate (2 * 2) false →
      ∀ c ∈ (exportAsText [true, false, false, true] 2).data,
        c = uncheckedGlyph ∨ c = '\n') ∧
    ([true, false, false, true] = List.replicate (2 * 2) true →
      ∀ c ∈ (exportAsText [true, false, false, true] 2).data,
        c = checkedGlyph ∨ c = '\n')) :=
  ⟨by decide, by decide, exportAsText_shape 2 [true, false, false, true] (by decide) (by decide)⟩

/-- The playback-relevant state of the animated-GIF hook: the current frame
index and the timestamp of the last recorded frame advance. -/
structure AnimState where
  currentFrame : Nat
  lastFrameTime : ℚ
deriving DecidableEq

/-- One run of `startAnimation`'s `animate` callback at time `currentTime`,
over the list of per-frame delays: compute
`frameDelay = frame.delay / playbackSpeed`; when the elapsed time since the
last advance reaches `frameDelay`, advance the index by one modulo the
frame count and reset the timestamp, otherwise leave the state unchanged. -/
def animateTick (frameDelays : List ℚ) (playbackSpeed : ℚ)
    (st : AnimState) (currentTime : ℚ) : AnimState :=
  let frameDelay := frameDelays.getD st.currentFrame 0 / playbackSpeed
  if frameDelay ≤ currentTime - st.lastFrameTime then
    { currentFrame := (st.currentFrame + 1) % frameDelays.length
      lastFrameTime := currentTime }
  else st

/-- **C4.** While playing, a scheduling tick leaves the state unchanged when
the elapsed time is below `currentFrame.duration / speedMultiplier`, and
otherwise advances the index by exactly one modulo the frame count (so the
last frame wraps to index 0) and sets the timestamp to `now`; the advance
threshold at doubled speed is half the threshold at the original speed. -/
theorem animateTick_advance (frameDelays : List ℚ) (speed : ℚ)
    (st : AnimState) (now : ℚ) (hidx : st.currentFrame < frameDelays.length) :
    (now - st.lastFrameTime < frameDelays.getD st.currentFrame 0 / speed →
      animateTick frameDelays speed st now = st) ∧
    (frameDelays.getD st.currentFrame 0 / speed ≤ now - st.lastFrameTime →
      animateTick frameDelays speed st now =
        ⟨(st.currentFrame + 1) % frameDelays.length, now⟩ ∧
      (animateTick frameDelays speed st now).currentFrame < frameDelays.length ∧
      (st.currentFrame + 1 = frameDelays.length →
        (animateTick frameDelays speed st now).currentFrame = 0)) ∧
    frameDelays.getD st.currentFrame 0 / (2 * speed) =
      frameDelays.getD st.currentFrame 0 / speed / 2 := by
  refine ⟨?_, ?_, ?_⟩
  · intro hlt
    rw [animateTick, if_neg (not_le.mpr hlt)]
  · intro hle
    have hpos : 0 < frameDelays.length := Nat.pos_of_ne_zero (by omega)
    rw [animateTick, if_pos hle]
    refine ⟨rfl, Nat.mod_lt _ hpos, ?_⟩
    intro hwrap
    simp [hwrap]
  · rw [div_div]
    ring_nf

/-- Witness for C4 at a one-frame sequence. -/
theorem animateTick_advance_witness :
    (0 : Nat) < ([100] : List ℚ).length ∧
    (((100 : ℚ)) / 1 ≤ (150 : ℚ) - 0 →
      animateTick [100] 1 ⟨0, 0⟩ 150 = ⟨(0 + 1) % 1, 150⟩) := by
  refine ⟨by decide, ?_⟩
  intro hle
  exact ((animateTick_advance [100] 1 ⟨0, 0⟩ 150 (by decide)).2.1 (by simpa using hle)).1

deriving instance DecidableEq for Except

/-- A browser `File`: its declared MIME type and byte size (the only fields
the validators read). -/
structure JSFile where
  type : String
  size : Nat
deriving DecidableEq

/-- Error kinds raised by the GIF utilities (`ImageProcessingError.code`). -/
inductive GifError where
  | noFile
  | unsupportedFormat
  | fileTooLarge
  | extractionFailed
deriving DecidableEq

/-- `GIF_CONFIG.SUPPORTED_FORMATS` from the GIF processor. -/
def GIF_SUPPORTED_FORMATS : List String := ["image/gif"]

/-- The 50 MB GIF size limit of `validateGIF`. -/
def GIF_MAX_FILE_SIZE : Nat := 50 * 1024 * 1024

/-- `validateGIF` from the GIF processor: missing file, non-GIF MIME type
and over-50 MB size are rejected, in that order. -/
def validateGIF (file : Option JSFile) : Except GifError Unit :=
  match file with
  | none => .error .noFile
  | some f =>
    if ¬ (GIF_SUPPORTED_FORMATS.contains f.type) then .error .unsupportedFormat
    else if GIF_MAX_FILE_SIZE < f.size then .error .fileTooLarge
    else .ok ()

/-- `GIF_CONFIG.DEFAULT_DELAY` / the hook's hard-coded delay fallback. -/
def DEFAULT_GIF_DELAY : Nat := 100

/-- A frame handed back by the extractor: its pixel raster and its delay,
`none` standing for a missing (`undefined`/`null`) delay field. -/
structure ExtractedFrame where
  imageData : ImageData
  delay : Option Nat
deriving DecidableEq

/-- A frame stored by the hook's `processGIF`: the computed checkbox grid
and the display delay in milliseconds. -/
structure ProcessedFrame where
  checkboxStates : List Bool
  delay : Nat
deriving DecidableEq

/-- JavaScript `frame.delay || 100`: a missing or zero delay (both falsy)
falls back to the 100 ms default. -/
def delayOrDefault (d : Option Nat) : Nat :=
  match d with
  | none => DEFAULT_GIF_DELAY
  | some v => if v = 0 then DEFAULT_GIF_DELAY else v

/-- The per-frame body of the hook's `processGIF` loop: grayscale the frame,
threshold it to a grid, and attach `frame.delay || 100`. -/
def processFrame (scale : ImageData → Nat → List Pixel)
    (threshold gridSize : Nat) (f : ExtractedFrame) : ProcessedFrame :=
  let grayscaleData := convertImageDataToGrayscale f.imageData
  let checkboxStates := applyThreshold scale grayscaleData threshold gridSize
  { checkboxStates := checkboxStates, delay := delayOrDefault f.delay }

/-- `processGIF` from the `useAnimatedGIF` hook (the multi-frame entry point
the application uses): it calls the extractor on the file directly — with no
`validateGIF` step — and processes every extracted frame.  Frame extraction
is host behaviour and is passed in as `extract`. -/
def hookProcessGIF
    (extract : Option JSFile → Except GifError (List ExtractedFrame))
    (scale : ImageData → Nat → List Pixel)
    (file : Option JSFile) (gridSize threshold : Nat) :
    Except GifError (List ProcessedFrame) :=
  match extract file with
  | .error e => .error e
  | .ok frames => .ok (frames.map (processFrame scale threshold gridSize))

/-- A frame as built by the GIF-processor utility (`GIFFrame`). -/
structure GIFFrame where
  imageData : ImageData
  delay : Option Nat
  disposalMethod : Nat
deriving DecidableEq

/-- `processGIFrames` from the GIF-processor utility: each frame is
grayscaled and thresholded, but the returned `GIFFrame` is rebuilt from the
original image data, delay and disposal method only. -/
def processGIFrames (scale : ImageData → Nat → List Pixel)
    (frames : List GIFFrame) (gridSize threshold : Nat) : List GIFFrame :=
  frames.map (fun frame =>
    let grayscaleData := convertImageDataToGrayscale frame.imageData
    let checkboxStates := applyThreshold scale grayscaleData threshold gridSize
    GIFFrame.mk frame.imageData frame.delay frame.disposalMethod)

/-- `processGIF` from the GIF-processor utility module: validate the file,
then extract frames, then process them. -/
def utilProcessGIF
    (extract : Option JSFile → Except GifError (List GIFFrame))
    (scale : ImageData → Nat → List Pixel)
    (file : Option JSFile) (gridSize threshold : Nat) :
    Except GifError (List GIFFrame) :=
  match validateGIF file with
  | .error e => .error e
  | .ok _ =>
    match extract file with
    | .error e => .error e
    | .ok frames => .ok (processGIFrames scale frames gridSize threshold)

/-- **C10.** Every frame stored by the hook's multi-frame processing has a
strictly positive delay: a missing or zero extracted delay falls back to
100 ms, and for every positive speed multiplier the playback advance
threshold `delay / speedMultiplier` is strictly positive. -/
theorem processedFrames_delay_positive
    (extract : Option JSFile → Except GifError (List ExtractedFrame))
    (scale : ImageData → Nat → List Pixel)
    (file : Option JSFile) (gridSize threshold : Nat)
    (frames : List ProcessedFrame) (speed : ℚ)
    (hok : hookProcessGIF extract scale file gridSize threshold = .ok frames)
    (hspeed : 0 < speed) :
    (∀ f ∈ frames, 0 < f.delay ∧ 0 < (f.delay : ℚ) / speed) ∧
    delayOrDefault none = 100 ∧ delayOrDefault (some 0) = 100 := by
  refine ⟨?_, rfl, rfl⟩
  intro f hf
  have hdelay : 0 < f.delay := by
    rw [hookProcessGIF] at hok
    rcases hextract : extract file with e | raws
    · rw [hextract] at hok
      exact absurd hok (by simp)
    · rw [hextract] at hok
      have hframes : frames = raws.map (processFrame scale threshold gridSize) := by
        simpa using hok.symm
      rw [hframes] at hf
      obtain ⟨raw, _, hmap⟩ := List.mem_map.mp hf
      rw [← hmap]
      show 0 < delayOrDefault raw.delay
      rcases raw.delay with _ | v
      · decide
      · by_cases hv : v = 0
        · simp [delayOrDefault, hv, DEFAULT_GIF_DELAY]
        · simp only [delayOrDefault, if_neg hv]
          omega
  exact ⟨hdelay, div_pos (by exact_mod_cast hdelay) hspeed⟩

/-- Witness for C10 with a concrete extractor returning a zero-delay frame. -/
theorem processedFrames_delay_positive_witness :
    hookProcessGIF (fun _ => .ok [⟨ImageData.mk 1 1 [⟨0, 0, 0, 255⟩], some 0⟩])
        (fun d _ => d.data) (some ⟨"image/gif", 10⟩) 1 128 =
      .ok [⟨[true], 100⟩] ∧
    (0 : ℚ) < 1 ∧
    (∀ f ∈ ([⟨[true], 100⟩] : List ProcessedFrame), 0 < f.delay ∧ 0 < (f.delay : ℚ) / 1) := by
  refine ⟨by with_unfolding_all decide, by norm_num, ?_⟩
  exact (processedFrames_delay_positive (fun _ => .ok [⟨ImageData.mk 1 1 [⟨0, 0, 0, 255⟩], some 0⟩])
    (fun d _ => d.data) (some ⟨"image/gif", 10⟩) 1 128 [⟨[true], 100⟩] 1
    (by with_unfolding_all decide) (by norm_num)).1

/-- **C8, counterexample.** A 60 MB file of MIME type `text/plain` would be
rejected by `validateGIF` with `UnsupportedFormat`, yet the hook's
`processGIF` — the multi-frame processing entry point the application calls —
still runs the extractor on it and returns processed frames: validation does
not run before frame extraction, and frames are produced. -/
theorem hook_skips_validation_counterexample :
    validateGIF (some ⟨"text/plain", 60 * 1024 * 1024⟩) = .error .unsupportedFormat ∧
    hookProcessGIF (fun _ => .ok [⟨ImageData.mk 1 1 [⟨0, 0, 0, 255⟩], some 100⟩])
        (fun d _ => d.data) (some ⟨"text/plain", 60 * 1024 * 1024⟩) 1 128 =
      .ok [⟨[true], 100⟩] := by
  constructor
  · with_unfolding_all decide
  · with_unfolding_all decide

/-- **C8, amended.** The GIF-processor utility's `processGIF` does validate
before extracting — a missing file yields `NoFile`, a non-GIF MIME type
`UnsupportedFormat`, an over-50 MB GIF `FileTooLarge`, in each case for
every extractor (so no frames are produced and extraction cannot influence
the outcome) — but the `useAnimatedGIF` hook's `processGIF` used by the
application performs no validation at all: whenever the extractor succeeds,
it returns processed frames regardless of the file's presence, type or
size. -/
theorem gif_validation_split
    (extract : Option JSFile → Except GifError (List GIFFrame))
    (hookExtract : Option JSFile → Except GifError (List ExtractedFrame))
    (scale : ImageData → Nat → List Pixel)
    (file : Option JSFile) (gridSize threshold : Nat) :
    (file = none →
      utilProcessGIF extract scale none gridSize threshold = .error .noFile) ∧
    (∀ f, file = some f → ¬ (GIF_SUPPORTED_FORMATS.contains f.type) →
      utilProcessGIF extract scale file gridSize threshold = .error .unsupportedFormat) ∧
    (∀ f, file = some f → GIF_SUPPORTED_FORMATS.contains f.type →
      GIF_MAX_FILE_SIZE < f.size →
      utilProcessGIF extract scale file gridSize threshold = .error .fileTooLarge) ∧
    (∀ frames, hookExtract file = .ok frames →
      hookProcessGIF hookExtract scale file gridSize threshold =
        .ok (frames.map (processFrame scale threshold gridSize))) := by
  refine ⟨?_, ?_, ?_, ?_⟩
  · intro _
    rfl
  · intro f hfile hfmt
    subst hfile
    rw [utilProcessGIF, validateGIF]
    rw [if_pos hfmt]
  · intro f hfile hfmt hsize
    subst hfile
    rw [utilProcessGIF, validateGIF]
    rw [if_neg (by simpa using hfmt), if_pos hsize]
  · intro frames hok
    rw [hookProcessGIF, hok]

/-- Witness for C8 (amended) at concrete files and extractors. -/
theorem gif_validation_split_witness :
    (¬ (GIF_SUPPORTED_FORMATS.contains "text/plain")) ∧
    utilProcessGIF (fun _ => .ok []) (fun d _ => d.data)
      (some ⟨"text/plain", 10⟩) 1 128 = .error .unsupportedFormat := by
  refine ⟨by decide, ?_⟩
  exact (gif_validation_split (fun _ => .ok []) (fun _ => .ok []) (fun d _ => d.data)
    (some ⟨"text/plain", 10⟩) 1 128).2.1 ⟨"text/plain", 10⟩ rfl (by decide)

/-- The luminance histogram of a raster: `histogram[gray]++` over the data
array read at stride 4, i.e. the count of pixels whose red channel (the
luminance of grayscale data) equals the bin index. -/
def histOf (imageData : ImageData) : Nat → Nat :=
  fun gray => (imageData.data.map Pixel.r).count gray

/-- The mutable state of `calculateOtsuThreshold`'s candidate loop. -/
structure OtsuState where
  sumB : ℚ
  wB : Nat
  maxVariance : ℚ
  threshold : Nat
deriving DecidableEq

/-- The candidate loop of `calculateOtsuThreshold`, iterating over the bins
`(i, histogram[i])` in order: accumulate `wB`, skip while `wB == 0`, break
(returning the current threshold) when `wF == 0`, otherwise accumulate
`sumB`, compute the between-class variance
`wB * wF * (mB - mF) * (mB - mF)` and record the candidate whenever it
strictly exceeds the maximum so far. -/
def otsuGo (total : Nat) (sum : ℚ) : List (Nat × Nat) → OtsuState → Nat
  | [], s => s.threshold
  | (i, count) :: rest, s =>
    let wB := s.wB + count
    if wB = 0 then otsuGo total sum rest { s with wB := wB }
    else
      let wF := total - wB
      if wF = 0 then s.threshold
      else
        let sumB := s.sumB + (i : ℚ) * count
        let mB := sumB / (wB : ℚ)
        let mF := (sum - sumB) / (wF : ℚ)
        let variance := (wB : ℚ) * (wF : ℚ) * (mB - mF) * (mB - mF)
        if s.maxVariance < variance then
          otsuGo total sum rest ⟨sumB, wB, variance, i⟩
        else
          otsuGo total sum rest { s with sumB := sumB, wB := wB }

/-- The body of `calculateOtsuThreshold` after the histogram is built:
`total` is the histogram's total count, `sum` the weighted bin sum, and the
loop starts from `sumB = 0`, `wB = 0`, `maxVariance = 0` and the default
threshold 128. -/
def otsuFromHist (histogram : Nat → Nat) : Nat :=
  let total : Nat := ∑ i in Finset.range 256, histogram i
  let sum : ℚ := ∑ i in Finset.range 256, (i : ℚ) * histogram i
  otsuGo total sum ((List.range 256).map (fun i => (i, histogram i)))
    ⟨0, 0, 0, DEFAULT_THRESHOLD⟩

/-- `calculateOtsuThreshold` from the image processor: build the
256-bin luminance histogram of the raster and run the candidate loop. -/
def calculateOtsuThreshold (imageData : ImageData) : Nat :=
  otsuFromHist (histOf imageData)

/-- `PROCESSING_CONFIG.SUPPORTED_FORMATS` from the image processor. -/
def SUPPORTED_FORMATS : List String :=
  ["image/jpeg", "image/png", "image/gif", "image/webp"]

/-- `PROCESSING_CONFIG.MAX_FILE_SIZE` (10 MB). -/
def MAX_FILE_SIZE : Nat := 10 * 1024 * 1024

/-- `PROCESSING_CONFIG.MIN_DIMENSION`. -/
def MIN_DIMENSION : Nat := 10

/-- `PROCESSING_CONFIG.MAX_DIMENSION`. -/
def MAX_DIMENSION : Nat := 1000

/-- Error kinds of the still-image pipeline (`ImageProcessingError.code`). -/
inductive ImgError where
  | noFile
  | unsupportedFormat
  | fileTooLarge
  | imageTooSmall
  | imageTooLarge
  | loadError
deriving DecidableEq

/-- `validateImageFile` from the image processor. -/
def validateImageFile (file : Option JSFile) : Except ImgError Unit :=
  match file with
  | none => .error .noFile
  | some f =>
    if ¬ (SUPPORTED_FORMATS.contains f.type) then .error .unsupportedFormat
    else if MAX_FILE_SIZE < f.size then .error .fileTooLarge
    else .ok ()

/-- A decoded `HTMLImageElement`: its intrinsic dimensions (the pixel
content lives behind the host's `drawImage`, modelled by `draw`). -/
structure HTMLImage where
  width : Nat
  height : Nat
deriving DecidableEq

/-- `loadImage` from the image processor: host decoding failure becomes
`LOAD_ERROR`; decoded dimensions must lie within `[10, 1000]` on each axis,
checking the lower bound first. -/
def loadImage (decode : JSFile → Option HTMLImage) (file : JSFile) :
    Except ImgError HTMLImage :=
  match decode file with
  | none => .error .loadError
  | some img =>
    if img.width < MIN_DIMENSION ∨ img.height < MIN_DIMENSION then .error .imageTooSmall
    else if MAX_DIMENSION < img.width ∨ MAX_DIMENSION < img.height then .error .imageTooLarge
    else .ok img

/-- `convertToGrayscale` from the image processor: draw the image onto a
`targetWidth`-by-`targetHeight` canvas (the host resampling, passed in as
`draw`) and gray every pixel of the resulting raster in place. -/
def convertToGrayscale (draw : HTMLImage → Nat → Nat → List Pixel)
    (img : HTMLImage) (targetWidth targetHeight : Nat) : ImageData :=
  { width := targetWidth
    height := targetHeight
    data := (draw img targetWidth targetHeight).map grayPixel }

/-- The value returned by `processImage`: the checkbox grid, the effective
threshold and the (resampled) grayscale raster. -/
structure ProcessResult where
  checkboxStates : List Bool
  threshold : Nat
  imageData : ImageData
deriving DecidableEq

/-- `processImage` from the image processor: validate, load, grayscale
directly at `gridSize`-by-`gridSize`, compute the Otsu threshold on that
raster when no threshold is supplied, then apply the threshold.  (The
`none` branch after validation is unreachable: validation rejects a missing
file.) -/
def processImage (draw : HTMLImage → Nat → Nat → List Pixel)
    (scale : ImageData → Nat → List Pixel)
    (decode : JSFile → Option HTMLImage)
    (file : Option JSFile) (gridSize : Nat) (threshold : Option Nat) :
    Except ImgError ProcessResult :=
  match validateImageFile file with
  | .error e => .error e
  | .ok _ =>
    match file with
    | none => .error .noFile
    | some f =>
      match loadImage decode f with
      | .error e => .error e
      | .ok img =>
        let grayscaleData := convertToGrayscale draw img gridSize gridSize
        let finalThreshold :=
          match threshold with
          | none => calculateOtsuThreshold grayscaleData
          | some t => t
        let checkboxStates := applyThreshold scale grayscaleData finalThreshold gridSize
        .ok ⟨checkboxStates, finalThreshold, grayscaleData⟩

/-- A host `drawImage` used in the C1 counterexample: drawing at target
width 10 yields a black and a white pixel, drawing at any other width only
the black pixel. -/
def drawC1 : HTMLImage → Nat → Nat → List Pixel :=
  fun _ w _ =>
    if w = 10 then [⟨0, 0, 0, 255⟩, ⟨255, 255, 255, 255⟩] else [⟨0, 0, 0, 255⟩]

/-- A host rescale used in counterexamples: hand back the raster's data. -/
def scaleId : ImageData → Nat → List Pixel := fun d _ => d.data

/-- A host decoder used in the C1 counterexample: every file decodes to a
10-by-10 image. -/
def decodeC1 : JSFile → Option HTMLImage := fun _ => some ⟨10, 10⟩

set_option maxRecDepth 40000 in
/-- **C1, counterexample.** With the auto threshold requested, `processImage`
returns effective threshold 128 (Otsu of the 1-by-1 resampled grayscale
raster, a degenerate histogram), while Otsu applied to the full-resolution
(10-by-10 target) grayscale raster of the same image is 0: the effective
threshold is not Otsu of the full-resolution grayscale data, because the
raster is resampled to `gridSize`-by-`gridSize` before the threshold is
computed. -/
theorem processImage_otsu_counterexample :
    processImage drawC1 scaleId decodeC1 (some ⟨"image/png", 1000⟩) 1 none =
      .ok ⟨[true], 128, ImageData.mk 1 1 [⟨0, 0, 0, 255⟩]⟩ ∧
    calculateOtsuThreshold (convertToGrayscale drawC1 ⟨10, 10⟩ 10 10) = 0 ∧
    (128 : Nat) ≠ 0 := by
  refine ⟨?_, ?_, by decide⟩
  · with_unfolding_all decide
  · with_unfolding_all decide

/-- **C1, amended.** For every accepted still image processed with
`threshold = null`, the effective threshold is Otsu applied to the
`gridSize`-by-`gridSize` grayscale raster produced by the combined
grayscale-and-resample step — not to the full-resolution grayscale data —
and the grid is the threshold applied to that same resampled raster. -/
theorem processImage_otsu_after_resample
    (draw : HTMLImage → Nat → Nat → List Pixel)
    (scale : ImageData → Nat → List Pixel)
    (decode : JSFile → Option HTMLImage)
    (f : JSFile) (img : HTMLImage) (gridSize : Nat)
    (hval : validateImageFile (some f) = .ok ())
    (hload : loadImage decode f = .ok img) :
    processImage draw scale decode (some f) gridSize none =
      .ok ⟨applyThreshold scale (convertToGrayscale draw img gridSize gridSize)
            (calculateOtsuThreshold (convertToGrayscale draw img gridSize gridSize)) gridSize,
          calculateOtsuThreshold (convertToGrayscale draw img gridSize gridSize),
          convertToGrayscale draw img gridSize gridSize⟩ := by
  rw [processImage, hval, hload]

set_option maxRecDepth 40000 in
/-- Witness for C1 (amended) at the counterexample's concrete hosts. -/
theorem processImage_otsu_after_resample_witness :
    validateImageFile (some ⟨"image/png", 1000⟩) = .ok () ∧
    loadImage decodeC1 ⟨"image/png", 1000⟩ = .ok ⟨10, 10⟩ ∧
    processImage drawC1 scaleId decodeC1 (some ⟨"image/png", 1000⟩) 3 none =
      .ok ⟨applyThreshold scaleId (convertToGrayscale drawC1 ⟨10, 10⟩ 3 3)
            (calculateOtsuThreshold (convertToGrayscale drawC1 ⟨10, 10⟩ 3 3)) 3,
          calculateOtsuThreshold (convertToGrayscale drawC1 ⟨10, 10⟩ 3 3),
          convertToGrayscale drawC1 ⟨10, 10⟩ 3 3⟩ := by
  refine ⟨by decide, by decide, ?_⟩
  exact processImage_otsu_after_resample drawC1 scaleId decodeC1
    ⟨"image/png", 1000⟩ ⟨10, 10⟩ 3 (by decide) (by decide)

/-- The background pixel count after processing bins `0..k-1`: the loop's
`wB` at the start of iteration `k`. -/
def wBefore (hist : Nat → Nat) (k : Nat) : Nat :=
  ∑ i in Finset.range k, hist i

/-- The weighted background sum after processing bins `0..k-1`: the loop's
`sumB` at the start of iteration `k`. -/
def sumBefore (hist : Nat → Nat) (k : Nat) : ℚ :=
  ∑ i in Finset.range k, (i : ℚ) * hist i

/-- The between-class variance the loop computes at candidate cut `c`
(count-weighted form, exactly the loop's expression): zero, under rational
division-by-zero conventions, whenever the cut has an empty background or
foreground class. -/
def varAt (hist : Nat → Nat) (c : Nat) : ℚ :=
  let wB := wBefore hist (c + 1)
  let wF := wBefore hist 256 - wB
  let mB := sumBefore hist (c + 1) / (wB : ℚ)
  let mF := (sumBefore hist 256 - sumBefore hist (c + 1)) / (wF : ℚ)
  (wB : ℚ) * (wF : ℚ) * (mB - mF) * (mB - mF)

/-- The between-class variance in the spec's fraction-weighted form:
`w_B` and `w_F` are background/foreground pixel-count fractions of the
total, `μ_B`/`μ_F` the class mean luminances. -/
def varianceSpec (hist : Nat → Nat) (c : Nat) : ℚ :=
  let total := wBefore hist 256
  let wB := (wBefore hist (c + 1) : ℚ) / (total : ℚ)
  let wF := ((total - wBefore hist (c + 1) : Nat) : ℚ) / (total : ℚ)
  let mB := sumBefore hist (c + 1) / (wBefore hist (c + 1) : ℚ)
  let mF := (sumBefore hist 256 - sumBefore hist (c + 1)) /
    ((total - wBefore hist (c + 1) : Nat) : ℚ)
  wB * wF * (mB - mF) * (mB - mF)

/-- The loop's running maximum variance after bins `0..k-1`. -/
def runMax (hist : Nat → Nat) : Nat → ℚ
  | 0 => 0
  | k + 1 => max (runMax hist k) (varAt hist k)

/-- The loop's running best candidate after bins `0..k-1` (the default 128
until some candidate's variance strictly exceeds the running maximum). -/
def runArg (hist : Nat → Nat) : Nat → Nat
  | 0 => DEFAULT_THRESHOLD
  | k + 1 => if runMax hist k < varAt hist k then k else runArg hist k

lemma wBefore_succ (hist : Nat → Nat) (k : Nat) :
    wBefore hist (k + 1) = wBefore hist k + hist k :=
  Finset.sum_range_succ hist k

lemma sumBefore_succ (hist : Nat → Nat) (k : Nat) :
    sumBefore hist (k + 1) = sumBefore hist k + (k : ℚ) * hist k :=
  Finset.sum_range_succ (fun i => (i : ℚ) * hist i) k

lemma wBefore_mono (hist : Nat → Nat) {j k : Nat} (h : j ≤ k) :
    wBefore hist j ≤ wBefore hist k :=
  Finset.sum_le_sum_of_subset (Finset.range_subset.mpr h)

lemma runMax_nonneg (hist : Nat → Nat) : ∀ k, 0 ≤ runMax hist k := by
  intro k
  induction k with
  | zero => exact le_refl 0
  | succ k ih => exact le_trans ih (le_max_left _ _)

lemma varAt_of_wB_zero (hist : Nat → Nat) (c : Nat)
    (h : wBefore hist (c + 1) = 0) : varAt hist c = 0 := by
  rw [varAt, h]
  simp

lemma varAt_of_wF_zero (hist : Nat → Nat) (c : Nat)
    (h : wBefore hist 256 ≤ wBefore hist (c + 1)) : varAt hist c = 0 := by
  rw [varAt]
  have hsub : wBefore hist 256 - wBefore hist (c + 1) = 0 := Nat.sub_eq_zero_of_le h
  rw [hsub]
  simp

lemma varAt_le_runMax (hist : Nat → Nat) : ∀ n i, i < n → varAt hist i ≤ runMax hist n := by
  intro n
  induction n with
  | zero => intro i hi; omega
  | succ n ih =>
    intro i hi
    rcases Nat.lt_succ_iff_lt_or_eq.mp hi with hlt | heq
    · exact le_trans (ih i hlt) (le_max_left _ _)
    · rw [heq]
      exact le_max_right _ _

lemma runArg_spec (hist : Nat → Nat) :
    ∀ n, 0 < runMax hist n →
      runArg hist n < n ∧ varAt hist (runArg hist n) = runMax hist n ∧
      ∀ j, j < runArg hist n → varAt hist j < runMax hist n := by
  intro n
  induction n with
  | zero => intro h; norm_num [runMax] at h
  | succ n ih =>
    intro hpos
    by_cases hlt : runMax hist n < varAt hist n
    · have hmax : runMax hist (n + 1) = varAt hist n := by
        rw [runMax]
        exact max_eq_right hlt.le
      have harg : runArg hist (n + 1) = n := by
        rw [runArg, if_pos hlt]
      refine ⟨by omega, by rw [harg, hmax], ?_⟩
      intro j hj
      rw [harg] at hj
      rw [hmax]
      exact lt_of_le_of_lt (varAt_le_runMax hist n j hj) hlt
    · have hmax : runMax hist (n + 1) = runMax hist n := by
        rw [runMax]
        exact max_eq_left (not_lt.mp hlt)
      have harg : runArg hist (n + 1) = runArg hist n := by
        rw [runArg, if_neg hlt]
      rw [hmax] at hpos ⊢
      rw [harg]
      obtain ⟨h1, h2, h3⟩ := ih hpos
      exact ⟨by omega, h2, h3⟩

lemma runArg_stable (hist : Nat → Nat) (k : Nat) :
    ∀ m, k ≤ m → (∀ j, k ≤ j → j < m → varAt hist j = 0) →
      runArg hist m = runArg hist k := by
  intro m
  induction m with
  | zero =>
    intro hk _
    have : k = 0 := by omega
    rw [this]
  | succ m ih =>
    intro hk hz
    rcases Nat.lt_succ_iff_lt_or_eq.mp (Nat.lt_succ_of_le hk) with hlt | heq
    · have hv : varAt hist m = 0 := hz m (by omega) (by omega)
      rw [runArg, hv, if_neg (not_lt.mpr (runMax_nonneg hist m))]
      exact ih (by omega) (fun j h1 h2 => hz j h1 (by omega))
    · rw [heq]

lemma runArg_eq_default (hist : Nat → Nat) :
    ∀ n, (∀ j, j < n → varAt hist j = 0) → runArg hist n = DEFAULT_THRESHOLD := by
  intro n
  induction n with
  | zero => intro _; rfl
  | succ n ih =>
    intro hz
    rw [runArg, hz n (by omega), if_neg (not_lt.mpr (runMax_nonneg hist n))]
    exact ih (fun j hj => hz j (by omega))

lemma varAt_body (hist : Nat → Nat) (c : Nat) :
    varAt hist c =
      (wBefore hist (c + 1) : ℚ) * ((wBefore hist 256 - wBefore hist (c + 1) : Nat) : ℚ) *
        (sumBefore hist (c + 1) / (wBefore hist (c + 1) : ℚ) -
          (sumBefore hist 256 - sumBefore hist (c + 1)) /
            ((wBefore hist 256 - wBefore hist (c + 1) : Nat) : ℚ)) *
        (sumBefore hist (c + 1) / (wBefore hist (c + 1) : ℚ) -
          (sumBefore hist 256 - sumBefore hist (c + 1)) /
            ((wBefore hist 256 - wBefore hist (c + 1) : Nat) : ℚ)) := rfl

lemma otsuGo_invariant (hist : Nat → Nat) :
    ∀ n k, k + n = 256 →
      otsuGo (wBefore hist 256) (sumBefore hist 256)
        ((List.range' k n).map (fun i => (i, hist i)))
        ⟨sumBefore hist k, wBefore hist k, runMax hist k, runArg hist k⟩
      = runArg hist 256 := by
  intro n
  induction n with
  | zero =>
    intro k hk
    have hk' : k = 256 := by omega
    subst hk'
    rfl
  | succ n ih =>
    intro k hk
    rw [List.range'_succ, List.map_cons]
    simp only [otsuGo]
    have hwB : wBefore hist k + hist k = wBefore hist (k + 1) := (wBefore_succ hist k).symm
    have hsB : sumBefore hist k + (k : ℚ) * (hist k : ℚ) = sumBefore hist (k + 1) :=
      (sumBefore_succ hist k).symm
    rw [hwB, hsB, ← varAt_body hist k]
    by_cases h0 : wBefore hist (k + 1) = 0
    · rw [if_pos h0]
      have hk0 : hist k = 0 := by
        have := wBefore_succ hist k
        omega
      have hw1 : wBefore hist (k + 1) = wBefore hist k := by
        rw [wBefore_succ]
        omega
      have hs1 : sumBefore hist (k + 1) = sumBefore hist k := by
        rw [sumBefore_succ, hk0]
        push_cast
        ring
      have hv : varAt hist k = 0 := varAt_of_wB_zero hist k h0
      have hm : runMax hist (k + 1) = runMax hist k := by
        rw [runMax, hv]
        exact max_eq_left (runMax_nonneg hist k)
      have ha : runArg hist (k + 1) = runArg hist k := by
        rw [runArg, hv, if_neg (not_lt.mpr (runMax_nonneg hist k))]
      have hgoal := ih (k + 1) (by omega)
      rw [hs1, hm, ha] at hgoal
      exact hgoal
    · rw [if_neg h0]
      by_cases h1 : wBefore hist 256 - wBefore hist (k + 1) = 0
      · rw [if_pos h1]
        have hz : ∀ j, k ≤ j → j < 256 → varAt hist j = 0 := by
          intro j hj1 _
          refine varAt_of_wF_zero hist j ?_
          have hle : wBefore hist (k + 1) ≤ wBefore hist (j + 1) :=
            wBefore_mono hist (by omega)
          omega
        exact (runArg_stable hist k 256 (by omega) hz).symm
      · rw [if_neg h1]
        by_cases hlt : runMax hist k < varAt hist k
        · rw [if_pos hlt]
          have hm : runMax hist (k + 1) = varAt hist k := by
            rw [runMax]
            exact max_eq_right hlt.le
          have ha : runArg hist (k + 1) = k := by
            rw [runArg, if_pos hlt]
          have hgoal := ih (k + 1) (by omega)
          rw [hm, ha] at hgoal
          exact hgoal
        · rw [if_neg hlt]
          have hm : runMax hist (k + 1) = runMax hist k := by
            rw [runMax]
            exact max_eq_left (not_lt.mp hlt)
          have ha : runArg hist (k + 1) = runArg hist k := by
            rw [runArg, if_neg hlt]
          have hgoal := ih (k + 1) (by omega)
          rw [hm, ha] at hgoal
          exact hgoal

lemma otsuFromHist_eq_runArg (hist : Nat → Nat) :
    otsuFromHist hist = runArg hist 256 := by
  have h := otsuGo_invariant hist 256 0 rfl
  rw [otsuFromHist, List.range_eq_range']
  have h0w : wBefore hist 0 = 0 := rfl
  have h0s : sumBefore hist 0 = 0 := rfl
  rw [h0w, h0s] at h
  exact h

lemma wBefore_split (hist : Nat → Nat) (a : Nat) (ha : a + 1 ≤ 256) :
    wBefore hist 256 = wBefore hist (a + 1) + ∑ i in Finset.Ico (a + 1) 256, hist i := by
  rw [wBefore, wBefore, Finset.range_eq_Ico]
  exact (Finset.sum_Ico_consecutive hist (by omega) (by omega)).symm

lemma sumBefore_split (hist : Nat → Nat) (a : Nat) (ha : a + 1 ≤ 256) :
    sumBefore hist 256 =
      sumBefore hist (a + 1) + ∑ i in Finset.Ico (a + 1) 256, (i : ℚ) * hist i := by
  rw [sumBefore, sumBefore, Finset.range_eq_Ico]
  exact (Finset.sum_Ico_consecutive (fun i => (i : ℚ) * hist i) (by omega) (by omega)).symm

lemma varAt_pos (hist : Nat → Nat) (a b : Nat) (hab : a < b) (hb : b < 256)
    (ha : hist a ≠ 0) (hbn : hist b ≠ 0) : 0 < varAt hist a := by
  have hwB_pos : 0 < wBefore hist (a + 1) := by
    have h1 : hist a ≤ wBefore hist (a + 1) :=
      Finset.single_le_sum (fun i _ => Nat.zero_le (hist i)) (Finset.self_mem_range_succ a)
    omega
  have hsplitW := wBefore_split hist a (by omega)
  have htail_ge : hist b ≤ ∑ i in Finset.Ico (a + 1) 256, hist i :=
    Finset.single_le_sum (fun i _ => Nat.zero_le (hist i))
      (Finset.mem_Ico.mpr ⟨by omega, by omega⟩)
  have hwF_pos : 0 < wBefore hist 256 - wBefore hist (a + 1) := by omega
  have hwFq : ((wBefore hist 256 - wBefore hist (a + 1) : Nat) : ℚ) =
      ∑ i in Finset.Ico (a + 1) 256, (hist i : ℚ) := by
    have hn : wBefore hist 256 - wBefore hist (a + 1) =
        ∑ i in Finset.Ico (a + 1) 256, hist i := by omega
    rw [hn]
    push_cast
    rfl
  have hmB : sumBefore hist (a + 1) ≤ (a : ℚ) * (wBefore hist (a + 1) : ℚ) := by
    have hstep : sumBefore hist (a + 1) ≤ ∑ i in Finset.range (a + 1), (a : ℚ) * hist i := by
      refine Finset.sum_le_sum ?_
      intro i hi
      have hia : i ≤ a := by
        have := Finset.mem_range.mp hi
        omega
      have : (i : ℚ) ≤ (a : ℚ) := by exact_mod_cast hia
      exact mul_le_mul_of_nonneg_right this (Nat.cast_nonneg (hist i))
    calc sumBefore hist (a + 1) ≤ ∑ i in Finset.range (a + 1), (a : ℚ) * hist i := hstep
      _ = (a : ℚ) * ∑ i in Finset.range (a + 1), (hist i : ℚ) :=
          (Finset.mul_sum (Finset.range (a + 1)) (fun i => (hist i : ℚ)) (a : ℚ)).symm
      _ = (a : ℚ) * (wBefore hist (a + 1) : ℚ) := by
          rw [wBefore]
          push_cast
          rfl
  have hmF : ((a : ℚ) + 1) * ((wBefore hist 256 - wBefore hist (a + 1) : Nat) : ℚ) ≤
      sumBefore hist 256 - sumBefore hist (a + 1) := by
    have hsplitS := sumBefore_split hist a (by omega)
    have htailS : sumBefore hist 256 - sumBefore hist (a + 1) =
        ∑ i in Finset.Ico (a + 1) 256, (i : ℚ) * hist i := by
      rw [hsplitS]
      ring
    rw [htailS, hwFq, Finset.mul_sum]
    refine Finset.sum_le_sum ?_
    intro i hi
    have hia : a + 1 ≤ i := (Finset.mem_Ico.mp hi).1
    have hcast : ((a : ℚ) + 1) ≤ (i : ℚ) := by exact_mod_cast hia
    exact mul_le_mul_of_nonneg_right hcast (Nat.cast_nonneg (hist i))
  rw [varAt_body]
  have hq1 : (0 : ℚ) < (wBefore hist (a + 1) : ℚ) := by exact_mod_cast hwB_pos
  have hq2 : (0 : ℚ) < ((wBefore hist 256 - wBefore hist (a + 1) : Nat) : ℚ) := by
    exact_mod_cast hwF_pos
  have hmB' : sumBefore hist (a + 1) / (wBefore hist (a + 1) : ℚ) ≤ (a : ℚ) :=
    (div_le_iff₀ hq1).mpr (by linarith [hmB])
  have hmF' : ((a : ℚ) + 1) ≤
      (sumBefore hist 256 - sumBefore hist (a + 1)) /
        ((wBefore hist 256 - wBefore hist (a + 1) : Nat) : ℚ) :=
    (le_div_iff₀ hq2).mpr hmF
  have hdne : sumBefore hist (a + 1) / (wBefore hist (a + 1) : ℚ) -
      (sumBefore hist 256 - sumBefore hist (a + 1)) /
        ((wBefore hist 256 - wBefore hist (a + 1) : Nat) : ℚ) ≠ 0 := by
    intro hzero
    have : sumBefore hist (a + 1) / (wBefore hist (a + 1) : ℚ) =
        (sumBefore hist 256 - sumBefore hist (a + 1)) /
          ((wBefore hist 256 - wBefore hist (a + 1) : Nat) : ℚ) := by linarith
    linarith [hmB', hmF', this]
  have hprod : (wBefore hist (a + 1) : ℚ) *
      ((wBefore hist 256 - wBefore hist (a + 1) : Nat) : ℚ) *
      (sumBefore hist (a + 1) / (wBefore hist (a + 1) : ℚ) -
        (sumBefore hist 256 - sumBefore hist (a + 1)) /
          ((wBefore hist 256 - wBefore hist (a + 1) : Nat) : ℚ)) *
      (sumBefore hist (a + 1) / (wBefore hist (a + 1) : ℚ) -
        (sumBefore hist 256 - sumBefore hist (a + 1)) /
          ((wBefore hist 256 - wBefore hist (a + 1) : Nat) : ℚ)) =
      ((wBefore hist (a + 1) : ℚ) *
        ((wBefore hist 256 - wBefore hist (a + 1) : Nat) : ℚ)) *
      ((sumBefore hist (a + 1) / (wBefore hist (a + 1) : ℚ) -
        (sumBefore hist 256 - sumBefore hist (a + 1)) /
          ((wBefore hist 256 - wBefore hist (a + 1) : Nat) : ℚ)) *
      (sumBefore hist (a + 1) / (wBefore hist (a + 1) : ℚ) -
        (sumBefore hist 256 - sumBefore hist (a + 1)) /
          ((wBefore hist 256 - wBefore hist (a + 1) : Nat) : ℚ))) := by ring
  rw [hprod]
  exact mul_pos (mul_pos hq1 hq2) (mul_self_pos.mpr hdne)

lemma varianceSpec_eq (hist : Nat → Nat) (c : Nat) (hc : c < 256) :
    varianceSpec hist c =
      varAt hist c / ((wBefore hist 256 : ℚ) * (wBefore hist 256 : ℚ)) := by
  rw [varAt_body]
  by_cases hT : (wBefore hist 256 : ℚ) = 0
  · have hT0 : wBefore hist 256 = 0 := by exact_mod_cast hT
    have hwB0 : wBefore hist (c + 1) = 0 := by
      have := wBefore_mono hist (show c + 1 ≤ 256 by omega)
      omega
    rw [varianceSpec]
    simp [hwB0, hT0]
  · rw [varianceSpec]
    field_simp

/-- **C5.** `calculateOtsuThreshold` returns the candidate cut in `[0, 255]`
maximizing the between-class variance `w_B * w_F * (μ_B - μ_F)²` (with
`w_B`, `w_F` the class pixel-count fractions): whenever the histogram has
two populated bins, the result is below 256, attains the maximum of
`varianceSpec`, and every smaller candidate has strictly smaller variance
(the first maximizing candidate wins); on a degenerate histogram — no
pixels, or all pixels in a single bin, so no valid split exists — it
returns the fixed default 128. -/
theorem calculateOtsu_maximizes_variance (img : ImageData)
    (hbytes : ∀ p ∈ img.data, p.r < 256) :
    (∀ a b, a < b → b < 256 → histOf img a ≠ 0 → histOf img b ≠ 0 →
      calculateOtsuThreshold img < 256 ∧
      (∀ c, c < 256 →
        varianceSpec (histOf img) c ≤
          varianceSpec (histOf img) (calculateOtsuThreshold img)) ∧
      (∀ c, c < calculateOtsuThreshold img →
        varianceSpec (histOf img) c <
          varianceSpec (histOf img) (calculateOtsuThreshold img))) ∧
    ((∀ a b, a < b → b < 256 → ¬ (histOf img a ≠ 0 ∧ histOf img b ≠ 0)) →
      calculateOtsuThreshold img = 128) := by
  have hcalc : calculateOtsuThreshold img = runArg (histOf img) 256 :=
    otsuFromHist_eq_runArg (histOf img)
  constructor
  · intro a b hab hb ha hbn
    have hpos := varAt_pos (histOf img) a b hab hb ha hbn
    have hrm : 0 < runMax (histOf img) 256 :=
      lt_of_lt_of_le hpos (varAt_le_runMax (histOf img) 256 a (by omega))
    obtain ⟨hlt, heq, hfirst⟩ := runArg_spec (histOf img) 256 hrm
    have hT_pos : 0 < wBefore (histOf img) 256 := by
      have h1 : histOf img a ≤ wBefore (histOf img) 256 :=
        Finset.single_le_sum (fun i _ => Nat.zero_le _) (Finset.mem_range.mpr (by omega))
      omega
    have hTq : (0 : ℚ) < (wBefore (histOf img) 256 : ℚ) * (wBefore (histOf img) 256 : ℚ) := by
      have hq : (0 : ℚ) < (wBefore (histOf img) 256 : ℚ) := by exact_mod_cast hT_pos
      exact mul_pos hq hq
    rw [hcalc]
    refine ⟨hlt, ?_, ?_⟩
    · intro c hc
      rw [varianceSpec_eq (histOf img) c hc, varianceSpec_eq (histOf img) _ hlt]
      refine (div_le_div_iff_of_pos_right hTq).mpr ?_
      rw [heq]
      exact varAt_le_runMax (histOf img) 256 c hc
    · intro c hcc
      have hc256 : c < 256 := by omega
      rw [varianceSpec_eq (histOf img) c hc256, varianceSpec_eq (histOf img) _ hlt]
      refine (div_lt_div_iff_of_pos_right hTq).mpr ?_
      rw [heq]
      exact hfirst c hcc
  · intro hdeg
    rw [hcalc]
    refine runArg_eq_default (histOf img) 256 ?_
    intro j hj
    by_cases h0 : wBefore (histOf img) (j + 1) = 0
    · exact varAt_of_wB_zero _ j h0
    · refine varAt_of_wF_zero _ j ?_
      have hxi : ∃ i ∈ Finset.range (j + 1), histOf img i ≠ 0 := by
        by_contra hall
        push_neg at hall
        exact h0 (Finset.sum_eq_zero hall)
      obtain ⟨i, hiMem, hi0⟩ := hxi
      have hiLe : i ≤ j := by
        have := Finset.mem_range.mp hiMem
        omega
      have hupper : ∀ m, j < m → m < 256 → histOf img m = 0 := by
        intro m hm1 hm2
        by_contra hm0
        exact (hdeg i m (by omega) hm2) ⟨hi0, hm0⟩
      have hsplit := wBefore_split (histOf img) j (by omega)
      have htail0 : ∑ i in Finset.Ico (j + 1) 256, histOf img i = 0 := by
        refine Finset.sum_eq_zero ?_
        intro m hm
        have hmm := Finset.mem_Ico.mp hm
        exact hupper m (by omega) (by omega)
      omega

/-- A raster with half its pixels at luminance 10 and half at 240. -/
def imgBimodal : ImageData :=
  ⟨4, 1, [⟨10, 10, 10, 255⟩, ⟨10, 10, 10, 255⟩,
          ⟨240, 240, 240, 255⟩, ⟨240, 240, 240, 255⟩]⟩

/-- Witness for C5 at the two-spike raster. -/
theorem calculateOtsu_maximizes_variance_witness :
    (∀ p ∈ imgBimodal.data, p.r < 256) ∧ (10 : Nat) < 240 ∧ (240 : Nat) < 256 ∧
    histOf imgBimodal 10 ≠ 0 ∧ histOf imgBimodal 240 ≠ 0 ∧
    (calculateOtsuThreshold imgBimodal < 256 ∧
      (∀ c, c < 256 →
        varianceSpec (histOf imgBimodal) c ≤
          varianceSpec (histOf imgBimodal) (calculateOtsuThreshold imgBimodal)) ∧
      (∀ c, c < calculateOtsuThreshold imgBimodal →
        varianceSpec (histOf imgBimodal) c <
          varianceSpec (histOf imgBimodal) (calculateOtsuThreshold imgBimodal))) := by
  refine ⟨by decide, by decide, by decide, by decide, by decide, ?_⟩
  exact (calculateOtsu_maximizes_variance imgBimodal (by decide)).1 10 240
    (by decide) (by decide) (by decide) (by decide)

set_option maxRecDepth 40000 in
/-- **C2, counterexample.** On the raster with half its pixels at luminance
10 and half at 240, `calculateOtsuThreshold` returns 10 — the lower mode
itself — which is not strictly between the two modes. -/
theorem otsu_bimodal_counterexample :
    calculateOtsuThreshold imgBimodal = 10 ∧
    ¬ (10 < calculateOtsuThreshold imgBimodal ∧
        calculateOtsuThreshold imgBimodal < 240) := by
  have h : calculateOtsuThreshold imgBimodal = 10 := by with_unfolding_all decide
  exact ⟨h, by omega⟩

lemma twoBin_wBefore (hist : Nat → Nat) (a b : Nat) (hab : a < b)
    (honly : ∀ i, i ≠ a → i ≠ b → hist i = 0) :
    ∀ c, a ≤ c → c < b → wBefore hist (c + 1) = hist a := by
  intro c hc1 hc2
  refine Finset.sum_eq_single_of_mem a (Finset.mem_range.mpr (by omega)) ?_
  intro j hj hja
  have hjb : j ≠ b := by
    have := Finset.mem_range.mp hj
    omega
  exact honly j hja hjb

lemma twoBin_sumBefore (hist : Nat → Nat) (a b : Nat) (hab : a < b)
    (honly : ∀ i, i ≠ a → i ≠ b → hist i = 0) :
    ∀ c, a ≤ c → c < b → sumBefore hist (c + 1) = (a : ℚ) * hist a := by
  intro c hc1 hc2
  refine Finset.sum_eq_single_of_mem a (Finset.mem_range.mpr (by omega)) ?_
  intro j hj hja
  have hjb : j ≠ b := by
    have := Finset.mem_range.mp hj
    omega
  rw [honly j hja hjb]
  norm_num

lemma twoBin_wBefore_top (hist : Nat → Nat) (a b : Nat) (hab : a < b) (hb : b < 256)
    (honly : ∀ i, i ≠ a → i ≠ b → hist i = 0) :
    ∀ c, b ≤ c → wBefore hist (c + 1) = hist a + hist b := by
  intro c hc
  refine Finset.sum_eq_add_of_mem a b (Finset.mem_range.mpr (by omega))
    (Finset.mem_range.mpr (by omega)) (by omega) ?_
  intro j _ hj
  exact honly j hj.1 hj.2

/-- **C2, amended.** On every grayscale raster whose luminance histogram has
exactly two populated bins `a < b`, `calculateOtsuThreshold` returns exactly
the lower mode `a`: the result lies in `[a, b)` — strictly below the higher
mode — but is not strictly greater than the lower mode, so it is not
strictly between the two modes. -/
theorem otsu_bimodal_lower_mode (img : ImageData) (a b : Nat)
    (hab : a < b) (hb : b < 256)
    (ha : histOf img a ≠ 0) (hbn : histOf img b ≠ 0)
    (honly : ∀ i, i ≠ a → i ≠ b → histOf img i = 0) :
    calculateOtsuThreshold img = a ∧ calculateOtsuThreshold img < b ∧
    ¬ (a < calculateOtsuThreshold img) := by
  have hcalc : calculateOtsuThreshold img = runArg (histOf img) 256 :=
    otsuFromHist_eq_runArg (histOf img)
  have hpos := varAt_pos (histOf img) a b hab hb ha hbn
  have f1 : ∀ c, c < a → varAt (histOf img) c = 0 := by
    intro c hc
    refine varAt_of_wB_zero _ c ?_
    refine Finset.sum_eq_zero ?_
    intro j hj
    have hjr := Finset.mem_range.mp hj
    exact honly j (by omega) (by omega)
  have f3 : ∀ c, a ≤ c → c < b → varAt (histOf img) c = varAt (histOf img) a := by
    intro c hc1 hc2
    rw [varAt_body (histOf img) c, varAt_body (histOf img) a,
      twoBin_wBefore (histOf img) a b hab honly c hc1 hc2,
      twoBin_sumBefore (histOf img) a b hab honly c hc1 hc2,
      twoBin_wBefore (histOf img) a b hab honly a (le_refl a) hab,
      twoBin_sumBefore (histOf img) a b hab honly a (le_refl a) hab]
  have f4 : ∀ c, b ≤ c → varAt (histOf img) c = 0 := by
    intro c hc
    refine varAt_of_wF_zero _ c ?_
    have h1 := twoBin_wBefore_top (histOf img) a b hab hb honly c hc
    have h2 := twoBin_wBefore_top (histOf img) a b hab hb honly 255 (by omega)
    have h255 : 255 + 1 = 256 := by norm_num
    rw [h255] at h2
    omega
  have maxAt : ∀ c, c < 256 → varAt (histOf img) c ≤ varAt (histOf img) a := by
    intro c hc
    rcases Nat.lt_or_ge c a with h | h
    · rw [f1 c h]
      exact hpos.le
    · rcases Nat.lt_or_ge c b with h' | h'
      · rw [f3 c h h']
      · rw [f4 c h']
        exact hpos.le
  have hrm : 0 < runMax (histOf img) 256 :=
    lt_of_lt_of_le hpos (varAt_le_runMax (histOf img) 256 a (by omega))
  obtain ⟨hlt, heq, hfirst⟩ := runArg_spec (histOf img) 256 hrm
  have hRmax : runMax (histOf img) 256 = varAt (histOf img) a := by
    refine le_antisymm ?_ (varAt_le_runMax (histOf img) 256 a (by omega))
    rw [← heq]
    exact maxAt _ hlt
  have hRa : runArg (histOf img) 256 = a := by
    rcases lt_trichotomy (runArg (histOf img) 256) a with h | h | h
    · exfalso
      have h0 := f1 _ h
      rw [heq] at h0
      exact absurd h0 (ne_of_gt hrm)
    · exact h
    · exfalso
      have := hfirst a h
      rw [hRmax] at this
      exact absurd this (lt_irrefl _)
  rw [hcalc, hRa]
  exact ⟨rfl, hab, by omega⟩

/-- Witness for C2 (amended) at the two-spike raster. -/
theorem otsu_bimodal_lower_mode_witness :
    (10 : Nat) < 240 ∧ (240 : Nat) < 256 ∧
    histOf imgBimodal 10 ≠ 0 ∧ histOf imgBimodal 240 ≠ 0 ∧
    (calculateOtsuThreshold imgBimodal = 10 ∧ calculateOtsuThreshold imgBimodal < 240 ∧
      ¬ (10 < calculateOtsuThreshold imgBimodal)) := by
  refine ⟨by decide, by decide, by decide, by decide, ?_⟩
  refine otsu_bimodal_lower_mode imgBimodal 10 240 (by decide) (by decide)
    (by decide) (by decide) ?_
  intro i h1 h2
  refine List.count_eq_zero.mpr ?_
  intro hmem
  have hlist : imgBimodal.data.map Pixel.r = [10, 10, 240, 240] := rfl
  rw [hlist] at hmem
  simp at hmem
  rcases hmem with h | h
  · exact h1 h
  · exact h2 h
